import Mathlib

set_option maxRecDepth 8000

/-!
Verification of the stream parsers in
`src/simplest_mediadata/simplest_mediadata_raw.cpp` (zhongjihao/Multimedia).

Bytes are modelled as `Nat` values (the C code reads `unsigned char`, so all
reachable values are below 256; none of the statements below need that bound).
File input is modelled as a `List Nat` together with an explicit position and
end-of-file flag where the C code uses `FILE*` streams.
-/

/-! ## AAC / ADTS (source lines 1818-2023) -/

/-- Result of `getADTSframe` (source lines 1818-1858): `-1` (error), `1`
("need more data"), or `0` together with the bytes copied into `data`. -/
inductive ADTSResult where
  | err
  | needMore
  | frame (bytes : List Nat)
  deriving DecidableEq

/-- The ADTS sync-word test of source line 1835:
`(buffer[0] == 0xff) && ((buffer[1] & 0xf0) == 0xf0)`. -/
def isSync (b : List Nat) : Bool :=
  (b.getD 0 0 == 0xff) && ((b.getD 1 0) &&& 0xf0 == 0xf0)

/-- The frame-length decode of source lines 1838-1840:
`size |= (buffer[3] & 0x03) << 11; size |= buffer[4] << 3;
size |= (buffer[5] & 0xe0) >> 5;`. -/
def adtsSize (b : List Nat) : Nat :=
  (((b.getD 3 0) &&& 0x03) <<< 11) ||| ((b.getD 4 0) <<< 3) |||
    (((b.getD 5 0) &&& 0xe0) >>> 5)

/-- `getADTSframe` (source lines 1818-1858).  The C scan loop advances
`buffer`/`buf_size` together, which is the successive tails of the input
list; `memcpy(data, buffer, size)` is `take size` at the sync position.
The null-pointer branch of line 1822 cannot arise for lists. -/
def getADTSframe : List Nat → ADTSResult
  | [] => .err
  | b :: rest =>
    if (b :: rest).length < 7 then .err
    else if isSync (b :: rest) then
      if (b :: rest).length < adtsSize (b :: rest) then .needMore
      else .frame ((b :: rest).take (adtsSize (b :: rest)))
    else getADTSframe rest

/-- The inner loop of `simplest_aac_parser` (source lines 1893-2015): repeated
`getADTSframe` calls over the current window, advancing `input_data`/`data_size`
by each emitted frame's size.  On return `-1` the loop just breaks (`none`
remainder); on return `1` it saves the current window (`memcpy` to the buffer
front, line 1903).  A zero-length frame makes the C loop run forever, hence
the fuel; `none` overall marks fuel exhaustion (the divergent case). -/
def aacInner : Nat → List Nat → Option (List (List Nat) × Option (List Nat))
  | 0, _ => none
  | fuel + 1, w =>
    match getADTSframe w with
    | .err => some ([], none)
    | .needMore => some ([], some w)
    | .frame f =>
      match aacInner fuel (w.drop f.length) with
      | none => none
      | some (fs, r) => some (f :: fs, r)

/-- The outer read loop of `simplest_aac_parser` (source lines 1888-1916),
fed the successive chunks returned by `fread`.  A chunk of `n` new bytes is
written after the `offset` saved bytes, but `data_size` is set to `n` only
(line 1890), so the scan window is the first `n` bytes of
`saved ++ chunk`.  On return `-1` the saved bytes and `offset` are left as
they were; on return `1` the window remainder becomes the new saved data. -/
def aacRun : List Nat → List (List Nat) → Option (List (List Nat))
  | _, [] => some []
  | saved, c :: cs =>
    let w := (saved ++ c).take c.length
    match aacInner (w.length + 1) w with
    | none => none
    | some (fs, r) =>
      match aacRun (r.getD saved) cs with
      | none => none
      | some rest => some (fs ++ rest)

/-! ## H.264 Annex-B (source lines 1542-1776) -/

/-- `FindStartCode2` (source lines 1542-1548): three consecutive bytes equal
to `00 00 01`.  The C function reads exactly 3 bytes through a pointer; here
it is applied to the 3-element slice. -/
def FindStartCode2 (l : List Nat) : Bool :=
  match l with
  | [a, b, c] => a == 0 && b == 0 && c == 1
  | _ => false

/-- `FindStartCode3` (source lines 1550-1556): four consecutive bytes equal
to `00 00 00 01`. -/
def FindStartCode3 (l : List Nat) : Bool :=
  match l with
  | [a, b, c, d] => a == 0 && b == 0 && c == 0 && d == 1
  | _ => false

/-- The last `n` bytes of a buffer: `&Buf[pos-n]` when `pos` bytes are held. -/
def lastN (n : Nat) (l : List Nat) : List Nat := l.drop (l.length - n)

/-- `NALU_t` as filled in by `GetAnnexbNALU` (source lines 1615-1619 and
1646-1650).  `forbidden_bit` and `nal_reference_idc` store the *masked*,
unshifted values `buf[0] & 0x80` and `buf[0] & 0x60`, exactly as the source
does. -/
structure NALU_t where
  startcodeprefix_len : Nat
  len : Nat
  buf : List Nat
  forbidden_bit : Nat
  nal_reference_idc : Nat
  nal_unit_type : Nat
  deriving DecidableEq

/-- The field assignments of source lines 1615-1619 / 1646-1650 for a freshly
delimited payload.  When the payload is empty the C code reads a stale byte
of the reused `nalu->buf`; the model supplies 0, and every theorem about the
header fields assumes a non-empty payload. -/
def mkNALU (p : Nat) (payload : List Nat) : NALU_t :=
  { startcodeprefix_len := p
    len := payload.length
    buf := payload
    forbidden_bit := payload.headD 0 &&& 0x80
    nal_reference_idc := payload.headD 0 &&& 0x60
    nal_unit_type := payload.headD 0 &&& 0x1f }

/-- The scan loop of `GetAnnexbNALU` (source lines 1611-1629) plus the
delimiting of lines 1631-1653.  `buf` holds all bytes read so far (start code
included); each new byte is appended and the last 4 / last 3 bytes are tested
(4-byte pattern first, line 1625-1627).  On a match the found start code is
pushed back (`fseek` of line 1636), i.e. returned at the head of the
remaining stream, and the payload is everything between the leading start
code and the found one.  At end of file (`feof`, line 1613; the byte stored
by the final failed `fgetc` is discounted by the `pos-1` of line 1615) the
payload is everything after the leading start code and nothing remains. -/
def scanNALU (p : Nat) : List Nat → List Nat → List Nat × List Nat
  | buf, [] => (buf.drop p, [])
  | buf, b :: rest =>
    let buf' := buf ++ [b]
    if FindStartCode3 (lastN 4 buf') then
      ((buf'.take (buf'.length - 4)).drop p, lastN 4 buf' ++ rest)
    else if FindStartCode2 (lastN 3 buf') then
      ((buf'.take (buf'.length - 3)).drop p, lastN 3 buf' ++ rest)
    else
      scanNALU p buf' rest

/-- Result of one `GetAnnexbNALU` call: return value 0 (too few bytes to hold
a start code — end of stream), return value -1 (the stream does not start
with a start code), or a delimited NALU together with the remaining stream
(the file content from the pushed-back position onward). -/
inductive NALUResult where
  | eos
  | noStartCode
  | ok (n : NALU_t) (rem : List Nat)
  deriving DecidableEq

/-- `GetAnnexbNALU` (source lines 1558-1654): read 3 bytes and test for the
3-byte start code; otherwise read one more and test for the 4-byte one; then
scan for the next start code. -/
def GetAnnexbNALU (s : List Nat) : NALUResult :=
  match s with
  | a :: b :: c :: rest =>
    if FindStartCode2 [a, b, c] then
      let pr := scanNALU 3 [a, b, c] rest
      .ok (mkNALU 3 pr.1) pr.2
    else
      match rest with
      | [] => .eos
      | d :: rest' =>
        if FindStartCode3 [a, b, c, d] then
          let pr := scanNALU 4 [a, b, c, d] rest'
          .ok (mkNALU 4 pr.1) pr.2
        else .noStartCode
  | _ => .eos

/-- The driving loop of `simplest_h264_parser` (source lines 1696-1762):
keep calling `GetAnnexbNALU` while it yields NAL units.  Each emitted unit
consumes at least its 3-byte start code, so `s.length + 1` calls always
suffice (see `h264Units`). -/
def h264Go : Nat → List Nat → List NALU_t
  | 0, _ => []
  | fuel + 1, s =>
    match GetAnnexbNALU s with
    | .ok n rem => n :: h264Go fuel rem
    | _ => []

/-- All NAL units the parser emits for a stream. -/
def h264Units (s : List Nat) : List NALU_t := h264Go (s.length + 1) s

/-- The bytes of a start code of the given length (3 or 4). -/
def startBytes (p : Nat) : List Nat := if p = 4 then [0, 0, 0, 1] else [0, 0, 1]

/-! ## UDP / RTP / MPEG-TS (source lines 2582-2807) -/

/-- `RTP_FIXED_HEADER` (source lines 2584-2617), decoded from the first 12
datagram bytes exactly as the little-endian bit-field layout lays them out:
byte 0 is `csrc_len:4, extension:1, padding:1, version:2` (low to high bits),
byte 1 is `payload:7, marker:1`.  `seq_no` and `timestamp` are stored after
the `ntohs`/`ntohl` of lines 2769-2770 (big-endian); `ssrc` is never
byte-swapped nor used by the code, so it keeps the host little-endian value
the `memcpy` produces. -/
structure RTP_FIXED_HEADER where
  version : Nat
  padding : Nat
  extension : Nat
  csrc_len : Nat
  marker : Nat
  payload : Nat
  seq_no : Nat
  timestamp : Nat
  ssrc : Nat
  deriving DecidableEq

/-- Decode of the 12 header bytes (`memcpy` of source line 2685).  For a
datagram shorter than 12 bytes the C code reads stale bytes of `recvData`
beyond the datagram; the model supplies 0 for those positions, and no theorem
below depends on the affected field values. -/
def decodeRtpHeader (pkt : List Nat) : RTP_FIXED_HEADER :=
  { version := (pkt.getD 0 0 >>> 6) &&& 3
    padding := (pkt.getD 0 0 >>> 5) &&& 1
    extension := (pkt.getD 0 0 >>> 4) &&& 1
    csrc_len := pkt.getD 0 0 &&& 0xf
    marker := (pkt.getD 1 0 >>> 7) &&& 1
    payload := pkt.getD 1 0 &&& 0x7f
    seq_no := pkt.getD 2 0 * 256 + pkt.getD 3 0
    timestamp := pkt.getD 4 0 * 16777216 + pkt.getD 5 0 * 65536 +
      pkt.getD 6 0 * 256 + pkt.getD 7 0
    ssrc := pkt.getD 8 0 + pkt.getD 9 0 * 256 + pkt.getD 10 0 * 65536 +
      pkt.getD 11 0 * 16777216 }

/-- The MPEG-TS split loop of source lines 2783-2791:
`for(i=0; i<rtp_data_size; i=i+188) { if(rtp_data[i] != 0x47) break; ... }`,
counting the `[MPEGTS Pkt]` lines printed.  The loop looks only at the byte
at each multiple of 188 that is still inside the payload, so the final chunk
may be shorter than 188 bytes and still be counted. -/
def tsCountGo : Nat → List Nat → Nat
  | 0, _ => 0
  | _, [] => 0
  | fuel + 1, l => if l.headD 0 == 0x47 then 1 + tsCountGo fuel (l.drop 188) else 0

/-- Number of TS packets the loop reports for a given RTP payload. -/
def tsCount (l : List Nat) : Nat := tsCountGo l.length l

/-- The spec-side 188-byte chunking: consecutive chunks of the payload, the
last one possibly shorter. -/
def chunks188Go : Nat → List Nat → List (List Nat)
  | 0, _ => []
  | _, [] => []
  | fuel + 1, l => l.take 188 :: chunks188Go fuel (l.drop 188)

/-- All consecutive 188-byte chunks of a payload (final chunk may be short). -/
def chunks188 (l : List Nat) : List (List Nat) := chunks188Go l.length l

/-- What `simplest_udp_parser` does with one received datagram. -/
inductive UdpResult where
  | idle
  | handled (hdr : RTP_FIXED_HEADER) (rtpDataSize : Int) (tsPkts : Nat)
  deriving DecidableEq

/-- Per-datagram body of `simplest_udp_parser` (source lines 2672-2801) with
the hardcoded switches `parse_rtp = 1`, `parse_mpegts = 1`.  The only guard is
`pktsize > 0` (line 2673); there is no minimum-length check, so a 1..11-byte
datagram is still decoded, and `rtp_data_size = pktsize - 12` (line 2775) goes
negative.  The TS loop runs only when the decoded `payload` field is 33. -/
def udpDatagram (pkt : List Nat) : UdpResult :=
  if pkt.length = 0 then .idle
  else
    let hdr := decodeRtpHeader pkt
    let rtpDataSize : Int := (pkt.length : Int) - 12
    let ts := if hdr.payload = 33 then tsCount (pkt.drop 12) else 0
    .handled hdr rtpDataSize ts

/-! ## FLV (source lines 2041-2565)

The C code drives a `FILE*`; the model is the file content plus a cursor
`(position, end-of-file flag)`.  `fread`/`fgetc` advance the position and set
the flag on a short read; `fseek` repositions and clears the flag (C99
7.19.9.2p5), which matters below: the `feof` check of source line 2150 sits
after the `fseek(ifh, 11-sizeof(TAG_HEADER), SEEK_CUR)` of line 2128 and can
therefore never fire. -/

/-- `fread(buf, 1, n)`: the bytes actually read, the new position, and the
updated flag. -/
def freadSt (file : List Nat) (n : Nat) (cur : Nat × Bool) :
    List Nat × (Nat × Bool) :=
  let k := min n (file.length - cur.1)
  ((file.drop cur.1).take k, (cur.1 + k, cur.2 || decide (k < n)))

/-- `fgetc`: `some` byte and an advanced position, or `none` with the flag
set once the position is at (or past) the end. -/
def fgetcSt (file : List Nat) (cur : Nat × Bool) : Option Nat × (Nat × Bool) :=
  if h : cur.1 < file.length then (some file[cur.1], (cur.1 + 1, cur.2))
  else (none, (cur.1, true))

/-- `n` consecutive `fgetc` calls with the bytes discarded (the
`for(i=0;i<n;i++) fgetc/fputc(fgetc(..))` loops of the tag bodies). -/
def fgetcN (file : List Nat) (n : Nat) (cur : Nat × Bool) : Nat × Bool :=
  if n = 0 then cur
  else if cur.1 + n ≤ file.length then (cur.1 + n, cur.2)
  else (max cur.1 file.length, true)

/-- `fseek(ifh, k, SEEK_CUR)` for a forward seek: moves past the end freely
and clears the end-of-file flag. -/
def fseekFwd (k : Nat) (cur : Nat × Bool) : Nat × Bool := (cur.1 + k, false)

/-- `fseek(ifh, -1, SEEK_CUR)` (source lines 2128, 2353): moves back one byte
and clears the end-of-file flag.  The code only ever does this with a
positive position. -/
def fseekBack1 (cur : Nat × Bool) : Nat × Bool := (cur.1 - 1, false)

/-- The allow-listed metadata keys of source lines 2473-2476, as byte
strings: duration, width, height, videodatarate, framerate, videocodecid,
audiodatarate, audiosamplerate, audiosamplesize, stereo, audiocodecid,
filesize. -/
def allowKeys : List (List Nat) :=
  [[100, 117, 114, 97, 116, 105, 111, 110],
   [119, 105, 100, 116, 104],
   [104, 101, 105, 103, 104, 116],
   [118, 105, 100, 101, 111, 100, 97, 116, 97, 114, 97, 116, 101],
   [102, 114, 97, 109, 101, 114, 97, 116, 101],
   [118, 105, 100, 101, 111, 99, 111, 100, 101, 99, 105, 100],
   [97, 117, 100, 105, 111, 100, 97, 116, 97, 114, 97, 116, 101],
   [97, 117, 100, 105, 111, 115, 97, 109, 112, 108, 101, 114, 97, 116, 101],
   [97, 117, 100, 105, 111, 115, 97, 109, 112, 108, 101, 115, 105, 122, 101],
   [115, 116, 101, 114, 101, 111],
   [97, 117, 100, 105, 111, 99, 111, 100, 101, 99, 105, 100],
   [102, 105, 108, 101, 115, 105, 122, 101]]

/-- The `strcmp` chain of source lines 2473-2476.  `KeyString` is a
zero-initialised buffer filled with the key bytes, so `strcmp` compares the
bytes up to the first NUL. -/
def allowKey (key : List Nat) : Bool :=
  allowKeys.contains (key.takeWhile fun b => b ≠ 0)

/-- One iteration of the ECMA-array key/value loop (source lines 2462-2546):
read the 2-byte key length and the key; for an allow-listed key read the
value (Number: 8 bytes, Boolean: 1 byte, any other type: nothing); for any
other key skip by type (Number: `fseek +8`, Boolean: `fseek +1`, String:
2-byte length then `fseek +len`, any other type: nothing). -/
def amfEntry (file : List Nat) (cur : Nat × Bool) : Nat × Bool :=
  let r1 := freadSt file 2 cur
  let keyLen := r1.1.getD 0 0 * 256 + r1.1.getD 1 0
  let r2 := freadSt file keyLen r1.2
  if allowKey r2.1 then
    let r3 := fgetcSt file r2.2
    if r3.1 = some 0 then (freadSt file 8 r3.2).2
    else if r3.1 = some 1 then (fgetcSt file r3.2).2
    else r3.2
  else
    let r3 := fgetcSt file r2.2
    if r3.1 = some 0 then fseekFwd 8 r3.2
    else if r3.1 = some 1 then fseekFwd 1 r3.2
    else if r3.1 = some 2 then
      let r4 := freadSt file 2 r3.2
      fseekFwd (r4.1.getD 0 0 * 256 + r4.1.getD 1 0) r4.2
    else r3.2

/-- The `for(i=0; i<num; i++)` loop over the ECMA-array entries
(source line 2462). -/
def amfLoop (file : List Nat) : Nat → (Nat × Bool) → Nat × Bool
  | 0, cur => cur
  | n + 1, cur => amfLoop file n (amfEntry file cur)

/-- The script-tag branch (source lines 2399-2553): read the first AMF value
(a type-2 string: 2-byte length plus bytes), then the second (a type-8 ECMA
array: 4-byte big-endian count, then the key/value loop), then reposition:
`if (ftell(ifh) != datasize+9+4+11) fseek(ifh, datasize+24, SEEK_SET)` —
an absolute seek that assumes the script tag is the first tag of the file. -/
def flvScript (file : List Nat) (ds : Nat) (cur : Nat × Bool) : Nat × Bool :=
  let r1 := fgetcSt file cur
  let cur1 :=
    if r1.1 = some 2 then
      let r2 := freadSt file 2 r1.2
      (freadSt file (r2.1.getD 0 0 * 256 + r2.1.getD 1 0) r2.2).2
    else r1.2
  let r3 := fgetcSt file cur1
  let cur2 :=
    if r3.1 = some 8 then
      let r4 := freadSt file 4 r3.2
      let num := r4.1.getD 0 0 * 16777216 + r4.1.getD 1 0 * 65536 +
        r4.1.getD 2 0 * 256 + r4.1.getD 3 0
      amfLoop file num r4.2
    else r3.2
  if cur2.1 ≠ ds + 24 then (ds + 24, false) else cur2

/-- The per-type tag-body processing (source lines 2154-2554) with the
hardcoded switches `output_a = 1`, `output_v = 1`.  Audio: one `fgetc` for
the parameter byte, then `data_size - 1` copied bytes.  Video: one `fgetc`,
an `fseek(-1)`, then `data_size` copied bytes (both the first-video-tag and
the later-video-tag branches read the same input bytes).  Script: see
`flvScript`.  Any other tag type: nothing (no `default` case). -/
def flvBody (file : List Nat) (tagType ds : Nat) (cur : Nat × Bool) :
    Nat × Bool :=
  if tagType = 8 then fgetcN file (ds - 1) (fgetcSt file cur).2
  else if tagType = 9 then fgetcN file ds (fseekBack1 (fgetcSt file cur).2)
  else if tagType = 18 then flvScript file ds cur
  else cur

/-- Parser state: cursor plus the 12 bytes of the `TAG_HEADER` struct
(`sizeof(TAG_HEADER) = 12`: `TagType`, `DataSize[3]`, `Timestamp[3]`, one
byte of padding, `uint Reserved`).  A short `fread` into the struct
overwrites only a prefix of these bytes, leaving the rest stale. -/
structure FlvState where
  pos : Nat
  eof : Bool
  hdr : List Nat
  deriving DecidableEq

/-- One pass of the `do { ... } while(!feof(ifh))` loop of source lines
2115-2556: read the 4-byte previous-tag-size (value unused), `fread` the
12-byte `TAG_HEADER` struct, `fseek` back 1 byte (which clears the
end-of-file flag), print the tag record — type, `DataSize[0]*65536 +
DataSize[1]*256 + DataSize[2]`, and the timestamp likewise (source lines
2123-2124, 2147) — then the dead `feof` check of line 2150, then the body.
Returns the printed record, whether the loop `break` fired, and the new
state. -/
def flvIter (file : List Nat) (st : FlvState) : (Nat × Nat × Nat) × Bool × FlvState :=
  let r1 := freadSt file 4 (st.pos, st.eof)
  let r2 := freadSt file 12 r1.2
  let hdr' := r2.1 ++ st.hdr.drop r2.1.length
  let cur3 := fseekBack1 r2.2
  let ds := hdr'.getD 1 0 * 65536 + hdr'.getD 2 0 * 256 + hdr'.getD 3 0
  let ts := hdr'.getD 4 0 * 65536 + hdr'.getD 5 0 * 256 + hdr'.getD 6 0
  let row := (hdr'.getD 0 0, ds, ts)
  if cur3.2 then (row, true, ⟨cur3.1, cur3.2, hdr'⟩)
  else
    let cur4 := flvBody file (hdr'.getD 0 0) ds cur3
    (row, false, ⟨cur4.1, cur4.2, hdr'⟩)

/-- The tag loop: one record per pass, stopping after a pass whose final
`feof` is set (or on the dead in-loop break).  Fuel bounds the pass count;
every theorem below fixes a sufficient fuel explicitly. -/
def flvRun (file : List Nat) : Nat → FlvState → List (Nat × Nat × Nat)
  | 0, _ => []
  | fuel + 1, st =>
    let r := flvIter file st
    if r.2.1 then [r.1]
    else r.1 :: (if r.2.2.eof then [] else flvRun file fuel r.2.2)

/-- The header handling of source lines 2102-2112: `fread` of the 12-byte
`FLV_HEADER` struct (3+1+1 data bytes, 3 padding bytes, then `DataOffset` at
struct offset 8, hence the little-endian integer formed by file bytes 8..11),
followed by `fseek(ifh, flv.DataOffset, SEEK_SET)`.  The `TAG_HEADER` struct
is an uninitialised stack variable; the model starts it as zeros, and no
theorem depends on its initial bytes. -/
def flvInit (file : List Nat) : FlvState :=
  { pos := file.getD 8 0 + file.getD 9 0 * 256 + file.getD 10 0 * 65536 +
      file.getD 11 0 * 16777216
    eof := false
    hdr := List.replicate 12 0 }

/-- `simplest_flv_parser`'s sequence of printed tag records. -/
def flvParse (file : List Nat) (fuel : Nat) : List (Nat × Nat × Nat) :=
  flvRun file fuel (flvInit file)

/-! ## Spec-side encodings, used to state well-formedness of inputs -/

/-- A 24-bit big-endian field. -/
def u24be (n : Nat) : List Nat := [n / 65536 % 256, n / 256 % 256, n % 256]

/-- An FLV tag as written into a file: type, timestamp, body bytes. -/
structure FlvTag where
  tagType : Nat
  timestamp : Nat
  data : List Nat
  deriving DecidableEq

/-- The 11-byte tag header followed by the body: type, `u24` data size,
`u24` timestamp, timestamp-extension 0, stream id 0. -/
def encodeTag (t : FlvTag) : List Nat :=
  t.tagType :: (u24be t.data.length ++ u24be t.timestamp ++ [0, 0, 0, 0]) ++ t.data

/-- A standard FLV file: 9-byte header (`"FLV"`, version 1, flags 5,
data offset 9), previous-tag-size 0 before each tag, and the final
previous-tag-size after the last tag (all previous-tag-size values are
irrelevant to the parser and written as 0 here). -/
def encodeFlv (tags : List FlvTag) : List Nat :=
  [70, 76, 86, 1, 5, 0, 0, 0, 9] ++
    (tags.map fun t => [0, 0, 0, 0] ++ encodeTag t).flatten ++ [0, 0, 0, 0]

/-- Well-formed audio/video tag: recognised type, at least one body byte,
and encodable size/timestamp fields. -/
def wfTag (t : FlvTag) : Bool :=
  (t.tagType == 8 || t.tagType == 9) && decide (1 ≤ t.data.length) &&
    decide (t.data.length < 16777216) && decide (t.timestamp < 16777216)

/-- The record the parser prints for a tag. -/
def tagRec (t : FlvTag) : Nat × Nat × Nat := (t.tagType, t.data.length, t.timestamp)

/-- The 12 bytes the `TAG_HEADER` struct holds right after a tag's header was
read: the 11 header bytes plus the first body byte. -/
def tagHdr12 (t : FlvTag) : List Nat :=
  [t.tagType, t.data.length / 65536 % 256, t.data.length / 256 % 256,
   t.data.length % 256, t.timestamp / 65536 % 256, t.timestamp / 256 % 256,
   t.timestamp % 256, 0, 0, 0, 0, t.data.headD 0]

/-- An AMF0 value of one of the three types the skip logic handles. -/
inductive AmfVal where
  | num (bytes : List Nat)
  | boolean (b : Nat)
  | str (s : List Nat)
  deriving DecidableEq

/-- The AMF0 encoding of a value: type tag, then 8 bytes for a Number, one
byte for a Boolean, a 2-byte big-endian length plus the bytes for a
String. -/
def encVal : AmfVal → List Nat
  | .num bs => 0 :: bs
  | .boolean b => [1, b]
  | .str s => 2 :: (s.length / 256) :: (s.length % 256) :: s

/-- One encoded ECMA-array entry: 2-byte big-endian key length, key bytes,
encoded value. -/
def encEntry (e : List Nat × AmfVal) : List Nat :=
  (e.1.length / 256) :: (e.1.length % 256) :: e.1 ++ encVal e.2

/-- Well-formed entry for the skip-logic statement: encodable key length, a
Number value carries exactly 8 bytes, a String value an encodable length —
and an allow-listed key carries a Number or Boolean value (the parser reads
nothing of an allow-listed key's value of any other type). -/
def wfEntry (e : List Nat × AmfVal) : Bool :=
  decide (e.1.length < 65536) &&
    (match e.2 with
     | .num bs => bs.length == 8
     | .boolean _ => true
     | .str s => decide (s.length < 65536)) &&
    (!allowKey e.1 ||
      (match e.2 with
       | .num _ => true
       | .boolean _ => true
       | .str _ => false))

/-! ## Theorems: ADTS (claims C1, C4, C5, C10) -/

/-- Every frame `getADTSframe` emits is the `frame_length`-byte prefix of
the window at some sync position that held at least 7 bytes and at least
`frame_length` bytes. -/
theorem getADTSframe_frame_spec :
    ∀ b f : List Nat, getADTSframe b = .frame f →
      ∃ k, isSync (b.drop k) = true ∧ 7 ≤ (b.drop k).length ∧
        adtsSize (b.drop k) ≤ (b.drop k).length ∧
        f = (b.drop k).take (adtsSize (b.drop k))
  | [], f, h => by simp [getADTSframe] at h
  | x :: rest, f, h => by
    rw [getADTSframe] at h
    split at h
    · exact absurd h (by simp)
    · split at h
      · split at h
        · exact absurd h (by simp)
        · rename_i h7 hs hlen
          refine ⟨0, ?_⟩
          simp only [List.drop_zero]
          exact ⟨hs, by omega, by omega, by
            cases h; rfl⟩
      · rename_i h7 hs
        obtain ⟨k, hk⟩ := getADTSframe_frame_spec rest f h
        exact ⟨k + 1, by simpa using hk⟩

/-- C1 (amended): a scan window shorter than 7 bytes makes `getADTSframe`
return the error status `-1` (the same status as a corrupt argument), not
the recoverable status; only when a sync word heads a window of at least 7
bytes that is still shorter than the decoded `frame_length` does it return
the recoverable "need more data" status `1`.  In neither case is a frame
emitted.  (The counterexample shows the driving loop then loses deferred
frames: the buffered bytes of an `-1` window are dropped.) -/
theorem adts_insufficient (b : List Nat) :
    (b.length < 7 → getADTSframe b = .err) ∧
    (7 ≤ b.length → isSync b = true → b.length < adtsSize b →
      getADTSframe b = .needMore) := by
  constructor
  · intro h7
    cases b with
    | nil => rfl
    | cons x rest => rw [getADTSframe, if_pos h7]
  · intro h7 hs hlen
    cases b with
    | nil => simp at h7
    | cons x rest =>
      rw [getADTSframe, if_neg (by omega), if_pos hs, if_pos hlen]

/-- Witness for `adts_insufficient` at concrete inputs. -/
theorem adts_insufficient_witness :
    getADTSframe [0xff, 0xf0, 0, 0, 0, 0xe0] = .err ∧
    getADTSframe [0xff, 0xf0, 0, 0x03, 0xff, 0xe0, 0] = .needMore :=
  ⟨(adts_insufficient [0xff, 0xf0, 0, 0, 0, 0xe0]).1 (by decide),
   (adts_insufficient [0xff, 0xf0, 0, 0x03, 0xff, 0xe0, 0]).2 (by decide)
     (by decide) (by decide)⟩

/-- Counterexample to C1 as stated: a 6-byte window yields the error status
`-1`, not the recoverable status; and a 7-byte frame split 5+2 across two
driver chunks is never emitted (the bytes are dropped), while the same
stream in one chunk emits it. -/
theorem adts_insufficient_cex :
    getADTSframe [0xff, 0xf0, 0, 0, 0, 0xe0] ≠ .needMore ∧
    aacRun [] [[0xff, 0xf0, 0, 0, 0], [0xe0, 0]] = some [] ∧
    aacRun [] [[0xff, 0xf0, 0, 0, 0, 0xe0, 0]] =
      some [[0xff, 0xf0, 0, 0, 0, 0xe0, 0]] := by decide

/-- C4 (amended): every frame emitted by `getADTSframe` is read at a sync
position, and its byte count equals the `frame_length` decoded there by
`((byte3 & 0x03) << 11) | (byte4 << 3) | ((byte5 & 0xE0) >> 5)`.  The code
never checks `frame_length >= 7` (see the counterexample). -/
theorem adts_frame_length (b f : List Nat) (h : getADTSframe b = .frame f) :
    ∃ k, isSync (b.drop k) = true ∧ f.length = adtsSize (b.drop k) ∧
      f = (b.drop k).take (adtsSize (b.drop k)) := by
  obtain ⟨k, hsync, h7, hle, hf⟩ := getADTSframe_frame_spec b f h
  refine ⟨k, hsync, ?_, hf⟩
  rw [hf]
  simp only [List.length_take]
  omega

/-- Witness for `adts_frame_length` at a concrete 7-byte frame. -/
theorem adts_frame_length_witness :
    ∃ k, isSync (([0xff, 0xf0, 0, 0, 0, 0xe0, 0] : List Nat).drop k) = true ∧
      ([0xff, 0xf0, 0, 0, 0, 0xe0, 0] : List Nat).length =
        adtsSize (([0xff, 0xf0, 0, 0, 0, 0xe0, 0] : List Nat).drop k) ∧
      [0xff, 0xf0, 0, 0, 0, 0xe0, 0] =
        (([0xff, 0xf0, 0, 0, 0, 0xe0, 0] : List Nat).drop k).take
          (adtsSize (([0xff, 0xf0, 0, 0, 0, 0xe0, 0] : List Nat).drop k)) :=
  adts_frame_length [0xff, 0xf0, 0, 0, 0, 0xe0, 0]
    [0xff, 0xf0, 0, 0, 0, 0xe0, 0] (by decide)

/-- Counterexample to C4 as stated: a header whose length field decodes to 0
makes the reader emit a 0-byte frame, so an emitted frame's `frame_length`
is not always at least 7. -/
theorem adts_frame_length_cex :
    ∃ f : List Nat, getADTSframe [0xff, 0xf0, 0, 0, 0, 0, 0] = .frame f ∧
      f.length < 7 :=
  ⟨[], by decide, by decide⟩

/-- C5 (amended): feeding a stream to `simplest_aac_parser` one byte at a
time emits no frame at all — every scan window has length 1 (the driver sets
the window length to the newly read byte count only), which is below the
7-byte minimum, and the driver then drops the window.  Chunk-boundary
invariance therefore fails for every stream whose whole-buffer parse emits a
frame. -/
theorem aac_byte_at_a_time (s : List Nat) :
    aacRun [] (s.map fun b => [b]) = some [] := by
  induction s with
  | nil => rfl
  | cons x s ih => simp [aacRun, aacInner, getADTSframe, ih]

/-- Counterexample to C5 as stated: an 8-byte ADTS frame is emitted when the
stream arrives as one chunk but not when it arrives one byte at a time. -/
theorem aac_chunk_invariance_cex :
    aacRun [] [[0xff], [0xf1], [0], [0], [1], [0], [0], [0]] = some [] ∧
    aacRun [] [[0xff, 0xf1, 0, 0, 1, 0, 0, 0]] =
      some [[0xff, 0xf1, 0, 0, 1, 0, 0, 0]] ∧
    ([[0xff], [0xf1], [0], [0], [1], [0], [0], [0]] : List (List Nat)).flatten =
      [0xff, 0xf1, 0, 0, 1, 0, 0, 0] := by decide

/-- C10 (amended): the copy always starts at the byte position where the
sync pattern matched, so an emitted frame that has a first byte begins with
`0xFF`, and one that has a second byte has `0xF` in that byte's top four
bits.  A decoded `frame_length` below 2 produces a frame too short to
contain the sync word (see the counterexample). -/
theorem adts_frame_sync (b f : List Nat) (h : getADTSframe b = .frame f) :
    (f ≠ [] → f.headD 0 = 0xff) ∧
    (2 ≤ f.length → (f.getD 1 0) &&& 0xf0 = 0xf0) := by
  obtain ⟨k, hsync, h7, hle, hf⟩ := getADTSframe_frame_spec b f h
  rcases hw : b.drop k with _ | ⟨w0, _ | ⟨w1, w'⟩⟩ <;> rw [hw] at hsync h7 hle hf
  · simp at h7
  · simp at h7
  · simp only [isSync, List.getD_cons_zero, List.getD_cons_succ,
      Bool.and_eq_true, beq_iff_eq] at hsync
    constructor
    · intro hne
      rcases hsize : adtsSize (w0 :: w1 :: w') with _ | m
      · rw [hf, hsize] at hne; simp at hne
      · rw [hf, hsize]; simp [hsync.1]
    · intro h2
      rw [hf] at h2
      simp only [List.length_take] at h2
      rcases hsize : adtsSize (w0 :: w1 :: w') with _ | _ | m
      · omega
      · omega
      · rw [hf, hsize]; simp [hsync.2]

/-- Witness for `adts_frame_sync` at a concrete 7-byte frame. -/
theorem adts_frame_sync_witness :
    (([0xff, 0xf3, 0, 0, 0, 0xe0, 0] : List Nat) ≠ [] →
      ([0xff, 0xf3, 0, 0, 0, 0xe0, 0] : List Nat).headD 0 = 0xff) ∧
    (2 ≤ ([0xff, 0xf3, 0, 0, 0, 0xe0, 0] : List Nat).length →
      (([0xff, 0xf3, 0, 0, 0, 0xe0, 0] : List Nat).getD 1 0) &&& 0xf0 = 0xf0) :=
  adts_frame_sync [0xff, 0xf3, 0, 0, 0, 0xe0, 0]
    [0xff, 0xf3, 0, 0, 0, 0xe0, 0] (by decide)

/-- Counterexample to C10 as stated: a header whose length field decodes to
1 emits the one-byte frame `[0xFF]`, which has no second byte, so the
"top four bits of the second byte equal 0xF" part fails. -/
theorem adts_frame_sync_cex :
    ∃ f : List Nat, getADTSframe [0xff, 0xf0, 0, 0, 0, 0x20, 0] = .frame f ∧
      ¬ (f.getD 1 0) &&& 0xf0 = 0xf0 :=
  ⟨[0xff], by decide, by decide⟩

/-! ## Theorems: H.264 Annex-B (claims C2, C3) -/

/-- A positive 4-byte test saw exactly `00 00 00 01`. -/
theorem FindStartCode3_eq {l : List Nat} (h : FindStartCode3 l = true) :
    l = [0, 0, 0, 1] := by
  rcases l with _ | ⟨a, _ | ⟨b, _ | ⟨c, _ | ⟨d, _ | ⟨e, t⟩⟩⟩⟩⟩ <;>
    simp_all [FindStartCode3]

/-- A positive 3-byte test saw exactly `00 00 01`. -/
theorem FindStartCode2_eq {l : List Nat} (h : FindStartCode2 l = true) :
    l = [0, 0, 1] := by
  rcases l with _ | ⟨a, _ | ⟨b, _ | ⟨c, _ | ⟨d, t⟩⟩⟩⟩ <;>
    simp_all [FindStartCode2]

/-- A 4-byte start code found by the scan never reaches back into the
leading start code: at least 3 scanned bytes precede the appended one. -/
theorem no_overlap4 {pref extra : List Nat} {b : Nat}
    (hp : pref = [0, 0, 1] ∨ pref = [0, 0, 0, 1])
    (h : FindStartCode3 (lastN 4 (pref ++ extra ++ [b])) = true) :
    3 ≤ extra.length := by
  rcases extra with _ | ⟨x, _ | ⟨y, _ | ⟨z, t⟩⟩⟩
  · rcases hp with rfl | rfl <;> simp [lastN, FindStartCode3] at h
  · rcases hp with rfl | rfl <;> simp [lastN, FindStartCode3] at h
  · rcases hp with rfl | rfl <;> simp [lastN, FindStartCode3] at h
  · simp

/-- A 3-byte start code found by the scan never reaches back into the
leading start code: at least 2 scanned bytes precede the appended one. -/
theorem no_overlap3 {pref extra : List Nat} {b : Nat}
    (hp : pref = [0, 0, 1] ∨ pref = [0, 0, 0, 1])
    (h : FindStartCode2 (lastN 3 (pref ++ extra ++ [b])) = true) :
    2 ≤ extra.length := by
  rcases extra with _ | ⟨x, _ | ⟨y, t⟩⟩
  · rcases hp with rfl | rfl <;> simp [lastN, FindStartCode2] at h
  · rcases hp with rfl | rfl <;> simp [lastN, FindStartCode2] at h
  · simp

/-- Dropping a known leading block after a `take` that covers it. -/
theorem take_drop_pref {p n : Nat} (pref z : List Nat) (h : pref.length = p)
    (hn : p ≤ n) : ((pref ++ z).take n).drop p = z.take (n - p) := by
  rw [List.take_append_eq_append_take, List.take_of_length_le (by omega),
    List.drop_left' h, h]

/-- Dropping past a known leading block. -/
theorem drop_pref {p n : Nat} (pref z : List Nat) (h : pref.length = p)
    (hn : p ≤ n) : (pref ++ z).drop n = z.drop (n - p) := by
  rw [List.drop_append_eq_append_drop, List.drop_eq_nil_iff.mpr (by omega),
    List.nil_append, h]

/-- The scan loop splits the bytes after the leading start code exactly into
the payload and the pushed-back remainder, and that remainder is empty (end
of file) or begins with a start code. -/
theorem scanNALU_spec (pref : List Nat)
    (hp : pref = [0, 0, 1] ∨ pref = [0, 0, 0, 1]) :
    ∀ rest extra : List Nat,
      (scanNALU pref.length (pref ++ extra) rest).1 ++
        (scanNALU pref.length (pref ++ extra) rest).2 = extra ++ rest ∧
      ((scanNALU pref.length (pref ++ extra) rest).2 = [] ∨
        (scanNALU pref.length (pref ++ extra) rest).2.take 3 = [0, 0, 1] ∨
        (scanNALU pref.length (pref ++ extra) rest).2.take 4 = [0, 0, 0, 1]) := by
  intro rest
  induction rest with
  | nil =>
    intro extra
    refine ⟨?_, Or.inl rfl⟩
    simp [scanNALU, List.drop_left]
  | cons b rest ih =>
    intro extra
    by_cases h4 : FindStartCode3 (lastN 4 (pref ++ (extra ++ [b]))) = true
    · have h3e : 3 ≤ extra.length := no_overlap4 hp (by rwa [List.append_assoc])
      have hpn : pref.length ≤ (pref ++ (extra ++ [b])).length - 4 := by
        simp only [List.length_append, List.length_cons, List.length_nil]
        omega
      have hunfold :
          scanNALU pref.length (pref ++ extra) (b :: rest) =
            (((pref ++ (extra ++ [b])).take
                ((pref ++ (extra ++ [b])).length - 4)).drop pref.length,
              lastN 4 (pref ++ (extra ++ [b])) ++ rest) := by
        simp only [scanNALU, List.append_assoc]
        rw [if_pos h4]
      rw [hunfold]
      constructor
      · dsimp only
        rw [take_drop_pref pref (extra ++ [b]) rfl hpn, lastN,
          drop_pref pref (extra ++ [b]) rfl hpn, ← List.append_assoc,
          List.take_append_drop]
        simp
      · dsimp only
        rw [show lastN 4 (pref ++ (extra ++ [b])) = [0, 0, 0, 1] from
          FindStartCode3_eq h4]
        right; right
        simp
    · by_cases h3 : FindStartCode2 (lastN 3 (pref ++ (extra ++ [b]))) = true
      · have h2e : 2 ≤ extra.length := no_overlap3 hp (by rwa [List.append_assoc])
        have hpn : pref.length ≤ (pref ++ (extra ++ [b])).length - 3 := by
          simp only [List.length_append, List.length_cons, List.length_nil]
          omega
        have hunfold :
            scanNALU pref.length (pref ++ extra) (b :: rest) =
              (((pref ++ (extra ++ [b])).take
                  ((pref ++ (extra ++ [b])).length - 3)).drop pref.length,
                lastN 3 (pref ++ (extra ++ [b])) ++ rest) := by
          simp only [scanNALU, List.append_assoc]
          rw [if_neg h4, if_pos h3]
        rw [hunfold]
        constructor
        · dsimp only
          rw [take_drop_pref pref (extra ++ [b]) rfl hpn, lastN,
            drop_pref pref (extra ++ [b]) rfl hpn, ← List.append_assoc,
            List.take_append_drop]
          simp
        · dsimp only
          rw [show lastN 3 (pref ++ (extra ++ [b])) = [0, 0, 1] from
            FindStartCode2_eq h3]
          right; left
          simp
      · have hstep :
            scanNALU pref.length (pref ++ extra) (b :: rest) =
              scanNALU pref.length (pref ++ (extra ++ [b])) rest := by
          simp only [scanNALU, List.append_assoc]
          rw [if_neg h4, if_neg h3]
        rw [hstep]
        obtain ⟨hc, hr⟩ := ih (extra ++ [b])
        refine ⟨?_, hr⟩
        rw [hc]
        simp


/-- Inversion for a successful `GetAnnexbNALU` call: the prefix length is 3
or 4, the consumed bytes are exactly `start code ++ payload`, the remainder
is empty or begins with a start code, and the NALU is built by the field
assignments of `mkNALU`. -/
theorem GetAnnexbNALU_ok {s : List Nat} {n : NALU_t} {rem : List Nat}
    (h : GetAnnexbNALU s = .ok n rem) :
    (n.startcodeprefix_len = 3 ∨ n.startcodeprefix_len = 4) ∧
    startBytes n.startcodeprefix_len ++ n.buf ++ rem = s ∧
    (rem = [] ∨ rem.take 3 = [0, 0, 1] ∨ rem.take 4 = [0, 0, 0, 1]) ∧
    n = mkNALU n.startcodeprefix_len n.buf := by
  rcases s with _ | ⟨a, _ | ⟨b, _ | ⟨c, rest⟩⟩⟩
  · simp [GetAnnexbNALU] at h
  · simp [GetAnnexbNALU] at h
  · simp [GetAnnexbNALU] at h
  · by_cases h2 : FindStartCode2 [a, b, c] = true
    · simp only [GetAnnexbNALU, if_pos h2] at h
      obtain ⟨rfl, rfl⟩ : mkNALU 3 (scanNALU 3 [a, b, c] rest).1 = n ∧
          (scanNALU 3 [a, b, c] rest).2 = rem := by
        cases h; exact ⟨rfl, rfl⟩
      obtain ⟨rfl, rfl, rfl⟩ : a = 0 ∧ b = 0 ∧ c = 1 := by
        have := FindStartCode2_eq h2
        simp only [List.cons.injEq, and_true] at this
        exact ⟨this.1, this.2.1, this.2.2⟩
      have hspec := scanNALU_spec [0, 0, 1] (Or.inl rfl) rest []
      rw [show ([0, 0, 1] : List Nat).length = 3 from rfl] at hspec
      simp only [List.append_nil] at hspec
      refine ⟨Or.inl rfl, ?_, ?_, rfl⟩
      · show [0, 0, 1] ++ (scanNALU 3 [0, 0, 1] rest).1 ++
          (scanNALU 3 [0, 0, 1] rest).2 = 0 :: 0 :: 1 :: rest
        rw [List.append_assoc, hspec.1]
        simp
      · simpa using hspec.2
    · rcases rest with _ | ⟨d, rest'⟩
      · simp [GetAnnexbNALU, h2] at h
      · by_cases h3 : FindStartCode3 [a, b, c, d] = true
        · simp only [GetAnnexbNALU, if_neg h2, if_pos h3] at h
          obtain ⟨rfl, rfl⟩ : mkNALU 4 (scanNALU 4 [a, b, c, d] rest').1 = n ∧
              (scanNALU 4 [a, b, c, d] rest').2 = rem := by
            cases h; exact ⟨rfl, rfl⟩
          obtain ⟨rfl, rfl, rfl, rfl⟩ : a = 0 ∧ b = 0 ∧ c = 0 ∧ d = 1 := by
            have := FindStartCode3_eq h3
            simp only [List.cons.injEq, and_true] at this
            exact ⟨this.1, this.2.1, this.2.2.1, this.2.2.2⟩
          have hspec := scanNALU_spec [0, 0, 0, 1] (Or.inr rfl) rest' []
          rw [show ([0, 0, 0, 1] : List Nat).length = 4 from rfl] at hspec
          simp only [List.append_nil] at hspec
          refine ⟨Or.inr rfl, ?_, ?_, rfl⟩
          · show [0, 0, 0, 1] ++ (scanNALU 4 [0, 0, 0, 1] rest').1 ++
              (scanNALU 4 [0, 0, 0, 1] rest').2 = 0 :: 0 :: 0 :: 1 :: rest'
            rw [List.append_assoc, hspec.1]
            simp
          · simpa using hspec.2
        · simp [GetAnnexbNALU, h2, h3] at h

/-- A successful call consumes at least the 3 start-code bytes. -/
theorem GetAnnexbNALU_rem_lt {s : List Nat} {n : NALU_t} {rem : List Nat}
    (h : GetAnnexbNALU s = .ok n rem) : rem.length + 3 ≤ s.length := by
  obtain ⟨hp, hcat, -, -⟩ := GetAnnexbNALU_ok h
  have hlen := congrArg List.length hcat
  simp only [List.length_append] at hlen
  have hsb : 3 ≤ (startBytes n.startcodeprefix_len).length := by
    rcases hp with hp | hp <;> simp [startBytes, hp]
  omega

/-- A stream that begins with a start code yields a NAL unit. -/
theorem GetAnnexbNALU_of_valid {s : List Nat}
    (hs : s.take 3 = [0, 0, 1] ∨ s.take 4 = [0, 0, 0, 1]) :
    ∃ n rem, GetAnnexbNALU s = .ok n rem := by
  rcases hs with hs | hs
  · rcases s with _ | ⟨a, _ | ⟨b, _ | ⟨c, rest⟩⟩⟩ <;> simp at hs
    obtain ⟨rfl, rfl, rfl⟩ := hs
    exact ⟨mkNALU 3 (scanNALU 3 [0, 0, 1] rest).1,
      (scanNALU 3 [0, 0, 1] rest).2, by simp [GetAnnexbNALU, FindStartCode2]⟩
  · rcases s with _ | ⟨a, _ | ⟨b, _ | ⟨c, _ | ⟨d, rest⟩⟩⟩⟩ <;> simp at hs
    obtain ⟨rfl, rfl, rfl, rfl⟩ := hs
    exact ⟨mkNALU 4 (scanNALU 4 [0, 0, 0, 1] rest).1,
      (scanNALU 4 [0, 0, 0, 1] rest).2,
      by simp [GetAnnexbNALU, FindStartCode2, FindStartCode3]⟩

/-- Concatenating `start code ++ payload` over all units emitted by the
driving loop reproduces any stream that is empty or begins with a start
code. -/
theorem h264Go_roundtrip :
    ∀ fuel s, s.length < fuel →
      (s = [] ∨ s.take 3 = [0, 0, 1] ∨ s.take 4 = [0, 0, 0, 1]) →
      ((h264Go fuel s).map fun n =>
        startBytes n.startcodeprefix_len ++ n.buf).flatten = s := by
  intro fuel
  induction fuel with
  | zero => intro s h _; omega
  | succ fuel ih =>
    intro s hlen hs
    rcases hs with rfl | hs
    · rfl
    · obtain ⟨n, rem, hok⟩ := GetAnnexbNALU_of_valid hs
      obtain ⟨hp, hcat, hrem, -⟩ := GetAnnexbNALU_ok hok
      have hlt := GetAnnexbNALU_rem_lt hok
      simp only [h264Go, hok, List.map_cons, List.flatten_cons]
      rw [ih rem (by omega) (by
        rcases hrem with h | h | h
        · exact Or.inl h
        · exact Or.inr (Or.inl h)
        · exact Or.inr (Or.inr h))]
      exact hcat

/-- C2 (confirmed): for every stream beginning with a 3- or 4-byte start
code, concatenating `start_code ++ payload` over all NAL units emitted by
the parser, in emission order, reproduces the input byte stream exactly. -/
theorem h264_roundtrip (s : List Nat)
    (h : s.take 3 = [0, 0, 1] ∨ s.take 4 = [0, 0, 0, 1]) :
    ((h264Units s).map fun n =>
      startBytes n.startcodeprefix_len ++ n.buf).flatten = s :=
  h264Go_roundtrip (s.length + 1) s (by omega) (Or.inr h)

/-- Witness for `h264_roundtrip` on a concrete two-unit stream. -/
theorem h264_roundtrip_witness :
    ((h264Units [0, 0, 1, 0x65, 0x88, 0, 0, 0, 1, 0x41, 0x9a]).map fun n =>
      startBytes n.startcodeprefix_len ++ n.buf).flatten =
      [0, 0, 1, 0x65, 0x88, 0, 0, 0, 1, 0x41, 0x9a] :=
  h264_roundtrip [0, 0, 1, 0x65, 0x88, 0, 0, 0, 1, 0x41, 0x9a]
    (Or.inl (by decide))

/-- Every unit the driving loop emits carries the `mkNALU` field values. -/
theorem h264Go_fields :
    ∀ fuel s n, n ∈ h264Go fuel s → n = mkNALU n.startcodeprefix_len n.buf := by
  intro fuel
  induction fuel with
  | zero => intro s n h; simp [h264Go] at h
  | succ fuel ih =>
    intro s n h
    rcases hok : GetAnnexbNALU s with _ | _ | ⟨m, rem⟩ <;>
      rw [h264Go, hok] at h
    · simp at h
    · simp at h
    · rcases List.mem_cons.mp h with rfl | h
      · exact (GetAnnexbNALU_ok hok).2.2.2
      · exact ih rem n h

/-- C3 (amended): for every emitted NAL unit with a non-empty payload and
first payload byte `b`, `forbidden_bit` is set iff `b & 0x80` is non-zero
and `unit_type = b & 0x1F`; but the stored `nal_reference_idc` field is the
unshifted mask `b & 0x60` (source line 1618/1649) — the value
`(b & 0x60) >> 5` only appears when the table printer shifts the field
(source line 1743). -/
theorem nalu_header_fields (s : List Nat) (n : NALU_t) (hn : n ∈ h264Units s)
    (hne : n.buf ≠ []) :
    (n.forbidden_bit ≠ 0 ↔ (n.buf.headD 0) &&& 0x80 ≠ 0) ∧
    n.nal_reference_idc = (n.buf.headD 0) &&& 0x60 ∧
    n.nal_reference_idc >>> 5 = ((n.buf.headD 0) &&& 0x60) >>> 5 ∧
    n.nal_unit_type = (n.buf.headD 0) &&& 0x1f := by
  have h := h264Go_fields _ _ _ hn
  have hf := congrArg NALU_t.forbidden_bit h
  have hi := congrArg NALU_t.nal_reference_idc h
  have ht := congrArg NALU_t.nal_unit_type h
  simp only [mkNALU] at hf hi ht
  exact ⟨by rw [hf], hi, by rw [hi], ht⟩

/-- Witness for `nalu_header_fields` on a concrete stream. -/
theorem nalu_header_fields_witness :
    ((mkNALU 3 [0x41]).forbidden_bit ≠ 0 ↔
      (((mkNALU 3 [0x41]).buf.headD 0) &&& 0x80 ≠ 0)) ∧
    (mkNALU 3 [0x41]).nal_reference_idc =
      ((mkNALU 3 [0x41]).buf.headD 0) &&& 0x60 ∧
    (mkNALU 3 [0x41]).nal_reference_idc >>> 5 =
      (((mkNALU 3 [0x41]).buf.headD 0) &&& 0x60) >>> 5 ∧
    (mkNALU 3 [0x41]).nal_unit_type =
      ((mkNALU 3 [0x41]).buf.headD 0) &&& 0x1f :=
  nalu_header_fields [0, 0, 1, 0x41] (mkNALU 3 [0x41]) (by decide) (by decide)

/-- Counterexample to C3 as stated: the parser emits a NAL unit whose
`nal_reference_idc` field is 0x60, not `(0x65 & 0x60) >> 5 = 3`. -/
theorem nalu_header_fields_cex :
    ∃ n, n ∈ h264Units [0, 0, 1, 0x65] ∧ n.buf ≠ [] ∧
      n.nal_reference_idc ≠ ((n.buf.headD 0) &&& 0x60) >>> 5 :=
  ⟨mkNALU 3 [0x65], by decide, by decide, by decide⟩

/-! ## Theorems: UDP / RTP / MPEG-TS (claims C6, C7) -/

/-- The TS loop count equals the number of leading 188-byte-aligned chunks
whose first byte is the sync byte — the final, possibly short, chunk
included. -/
theorem tsCountGo_takeWhile :
    ∀ fuel l, l.length ≤ fuel →
      tsCountGo fuel l =
        ((chunks188Go fuel l).takeWhile fun c => c.headD 0 == 0x47).length := by
  intro fuel
  induction fuel with
  | zero => intro l hl; cases l <;> rfl
  | succ n ih =>
    intro l hl
    cases l with
    | nil => rfl
    | cons x xs =>
      have hhead : ((x :: xs).take 188).headD 0 = x := by
        simp [List.take_cons]
      by_cases hx : x == 0x47
      · simp only [tsCountGo, chunks188Go, List.headD_cons, hx, if_true,
          List.takeWhile_cons, hhead, List.length_cons]
        rw [ih ((x :: xs).drop 188)
          (by simp only [List.length_drop, List.length_cons] at hl ⊢; omega)]
        omega
      · simp only [tsCountGo, chunks188Go, List.headD_cons, hx, if_false,
          List.takeWhile_cons, hhead]
        simp [hx]

/-- C7 (amended): for a payload-type-33 datagram of at least 12 bytes the
extractor reports one TsPacket per leading 188-byte-aligned chunk of the RTP
payload whose first byte is `0x47`, stopping at the first chunk that does
not start with `0x47` — but the final chunk may be shorter than 188 bytes
and is still counted if its first byte is `0x47` (the loop of source lines
2783-2791 checks `rtp_data[i]` whenever `i < rtp_data_size`, without
requiring 188 remaining bytes).  In particular a 200-byte datagram whose
payload starts with `0x47` yields exactly one TsPacket and a datagram whose
payload does not start with `0x47` yields zero. -/
theorem udp_ts_split (pkt : List Nat) (h12 : 12 ≤ pkt.length)
    (h33 : (pkt.getD 1 0) &&& 0x7f = 33) :
    udpDatagram pkt = .handled (decodeRtpHeader pkt) ((pkt.length : Int) - 12)
      ((chunks188 (pkt.drop 12)).takeWhile fun c => c.headD 0 == 0x47).length := by
  have hp : (decodeRtpHeader pkt).payload = 33 := h33
  have h0 : ¬ pkt.length = 0 := by omega
  simp only [udpDatagram, hp, if_neg h0, if_pos rfl, tsCount, chunks188]
  rw [tsCountGo_takeWhile (pkt.drop 12).length (pkt.drop 12) le_rfl]
  simp

/-- A 200-byte datagram: RTP header with payload type 33, then one full
188-byte TS packet starting with the sync byte. -/
def udpPkt200 : List Nat :=
  [0x80, 33] ++ List.replicate 10 0 ++ (0x47 :: List.replicate 187 0)

/-- Witness for `udp_ts_split` at the 200-byte datagram. -/
theorem udp_ts_split_witness :
    udpDatagram udpPkt200 = .handled (decodeRtpHeader udpPkt200)
      ((udpPkt200.length : Int) - 12)
      ((chunks188 (udpPkt200.drop 12)).takeWhile fun c => c.headD 0 == 0x47).length :=
  udp_ts_split udpPkt200 (by decide) (by decide)

/-- Counterexample to C7 as stated: a 13-byte datagram carries a single
`0x47` byte as its whole RTP payload — an incomplete 188-byte chunk — yet
the extractor still reports one TsPacket instead of zero. -/
theorem udp_ts_incomplete_chunk_cex :
    udpDatagram [0x80, 33, 0, 0, 0, 0, 0, 0, 0, 0, 0, 0, 0x47] =
      .handled (decodeRtpHeader [0x80, 33, 0, 0, 0, 0, 0, 0, 0, 0, 0, 0, 0x47])
        1 1 ∧
    (([0x80, 33, 0, 0, 0, 0, 0, 0, 0, 0, 0, 0, 0x47] : List Nat).drop 12).length <
      188 := by decide

/-- C6 (code bug): `simplest_udp_parser` has no minimum-length check — its
only guard is `pktsize > 0` — so an 11-byte datagram is not rejected: the
RTP header is decoded anyway (the `memcpy` reads one byte past the received
data) and `rtp_data_size = pktsize - 12` is passed to `fwrite` as `-1`. -/
theorem udp_short_datagram :
    udpDatagram (List.replicate 11 0) =
      .handled (decodeRtpHeader (List.replicate 11 0)) (-1) 0 := by decide

/-! ## Theorems: FLV / AMF (claims C8, C9) -/

/-- A full `fread` over known content. -/
theorem freadSt_exact (n : Nat) {file A B : List Nat} {pos : Nat} {e : Bool}
    (h : file.drop pos = A ++ B) (hn : A.length = n) :
    freadSt file n (pos, e) = (A, (pos + n, e)) := by
  have hlen := congrArg List.length h
  simp only [List.length_drop, List.length_append] at hlen
  unfold freadSt
  simp only [min_eq_left (by omega : n ≤ file.length - pos), h,
    List.take_left' hn]
  simp

/-- A `fgetc` over known content. -/
theorem fgetcSt_exact {file B : List Nat} {pos : Nat} {e : Bool} {a : Nat}
    (h : file.drop pos = a :: B) :
    fgetcSt file (pos, e) = (some a, (pos + 1, e)) := by
  have hlen := congrArg List.length h
  simp only [List.length_drop, List.length_cons] at hlen
  have hpos : pos < file.length := by omega
  have h1 : file[pos]? = some a := by
    rw [← List.head?_drop, h]
    rfl
  rw [List.getElem?_eq_getElem hpos] at h1
  simp only [Option.some.injEq] at h1
  simp [fgetcSt, hpos, h1]

/-- `n` discarded `fgetc` calls that stay inside the file. -/
theorem fgetcN_exact {file : List Nat} {pos n : Nat} {e : Bool}
    (h : pos + n ≤ file.length) :
    fgetcN file n (pos, e) = (pos + n, e) := by
  unfold fgetcN
  rcases Nat.eq_zero_or_pos n with rfl | hn
  · simp
  · simp [Nat.pos_iff_ne_zero.mp hn, h]

/-- `n` discarded `fgetc` calls that run past the end of the file. -/
theorem fgetcN_past {file : List Nat} {pos n : Nat} {e : Bool}
    (h1 : 0 < n) (h2 : file.length < pos + n) (h3 : pos ≤ file.length) :
    fgetcN file n (pos, e) = (file.length, true) := by
  unfold fgetcN
  simp [Nat.pos_iff_ne_zero.mp h1, Nat.not_le.mpr h2, Nat.max_eq_right h3]

/-- One key/value iteration over a well-formed encoded entry advances the
position by exactly the entry's encoded length — for an unknown key by the
type-directed skip (Number: 8, Boolean: 1, String: 2-byte length prefix plus
that many bytes), for an allow-listed key by the value read — and leaves the
end-of-file flag clear. -/
theorem amfEntry_exact {file : List Nat} {pos : Nat} {key : List Nat}
    {v : AmfVal} {REST : List Nat}
    (henc : file.drop pos = encEntry (key, v) ++ REST)
    (hwf : wfEntry (key, v) = true) :
    amfEntry file (pos, false) = (pos + (encEntry (key, v)).length, false) := by
  have h1 : file.drop pos = [key.length / 256, key.length % 256] ++
      (key ++ (encVal v ++ REST)) := by
    simpa [encEntry, List.append_assoc] using henc
  have h2 : file.drop (pos + 2) = key ++ (encVal v ++ REST) := by
    rw [← List.drop_drop, h1]
    simp
  have h3 : file.drop (pos + 2 + key.length) = encVal v ++ REST := by
    rw [show pos + 2 + key.length = pos + 2 + key.length from rfl,
      ← List.drop_drop, h2, List.drop_left]
  have hkl : key.length / 256 * 256 + key.length % 256 = key.length := by
    omega
  unfold amfEntry
  rw [freadSt_exact 2 h1 rfl]
  simp only [List.getD_cons_zero, List.getD_cons_succ, hkl]
  rw [freadSt_exact key.length h2 rfl]
  simp only [wfEntry, Bool.and_eq_true, Bool.or_eq_true, Bool.not_eq_true',
    decide_eq_true_eq] at hwf
  rcases v with bs | bb | s
  · -- Number: the allow-listed branch reads 8 bytes, the unknown branch
    -- seeks 8 bytes; both end at the same position.
    have hbs : bs.length = 8 := by simpa using hwf.1.2
    have h4 : file.drop (pos + 2 + key.length) = 0 :: (bs ++ REST) := by
      rw [h3]; simp [encVal]
    have h5 : file.drop (pos + 2 + key.length + 1) = bs ++ REST := by
      rw [← List.drop_drop, h4]
      simp
    by_cases hak : allowKey key
    · rw [if_pos hak, fgetcSt_exact h4]
      simp only [if_pos rfl]
      rw [freadSt_exact 8 h5 hbs]
      simp [encEntry, encVal, List.length_append, hbs]
      omega
    · rw [if_neg hak, fgetcSt_exact h4]
      simp only [if_pos rfl, fseekFwd]
      simp [encEntry, encVal, List.length_append, hbs]
      omega
  · -- Boolean: read or seek one byte.
    have h4 : file.drop (pos + 2 + key.length) = 1 :: (bb :: REST) := by
      rw [h3]; simp [encVal]
    have h5 : file.drop (pos + 2 + key.length + 1) = bb :: REST := by
      rw [← List.drop_drop, h4]
      simp
    by_cases hak : allowKey key
    · rw [if_pos hak, fgetcSt_exact h4]
      simp only [show (some 1 = some 0) = False by simp, if_false,
        if_pos rfl]
      rw [fgetcSt_exact h5]
      simp [encEntry, encVal, List.length_append]
      omega
    · rw [if_neg hak, fgetcSt_exact h4]
      simp only [show (some 1 = some 0) = False by simp, if_false,
        if_pos rfl, fseekFwd]
      simp [encEntry, encVal, List.length_append]
      omega
  · -- String: only reachable for an unknown key; skip by the decoded length.
    have hak : allowKey key = false := by
      rcases hwf.2 with h | h
      · exact h
      · simp at h
    have h4 : file.drop (pos + 2 + key.length) =
        2 :: ((s.length / 256) :: (s.length % 256) :: s ++ REST) := by
      rw [h3]; simp [encVal]
    have h5 : file.drop (pos + 2 + key.length + 1) =
        [s.length / 256, s.length % 256] ++ (s ++ REST) := by
      rw [← List.drop_drop, h4]
      simp
    rw [if_neg (by simp [hak]), fgetcSt_exact h4]
    simp only [show (some 2 = some 0) = False by simp,
      show (some 2 = some 1) = False by simp, if_false, if_pos rfl]
    rw [freadSt_exact 2 h5 rfl]
    simp only [List.getD_cons_zero, List.getD_cons_succ, fseekFwd]
    have hsl : s.length / 256 * 256 + s.length % 256 = s.length := by omega
    simp [encEntry, encVal, List.length_append, hsl]
    omega

/-- C9 (confirmed): over an `onMetaData` ECMA array whose entries are
well-formed — every key's value is a Number, Boolean or String, and
allow-listed keys carry Numbers or Booleans — the key/value loop advances
past every entry by exactly its encoded length, so each key/value pair is
parsed from the correct position and the loop ends exactly at the end of the
encoded entries; in particular an unknown key of type String never corrupts
the parsing of subsequent keys. -/
theorem amf_skip_unknown (file : List Nat) :
    ∀ (entries : List (List Nat × AmfVal)) (pos : Nat) (rest : List Nat),
      file.drop pos = (entries.map encEntry).flatten ++ rest →
      entries.all wfEntry = true →
      amfLoop file entries.length (pos, false) =
        (pos + ((entries.map encEntry).flatten).length, false) := by
  intro entries
  induction entries with
  | nil => intro pos rest _ _; simp [amfLoop]
  | cons ent entries ih =>
    intro pos rest henc hwf
    obtain ⟨key, v⟩ := ent
    simp only [List.all_cons, Bool.and_eq_true] at hwf
    simp only [List.map_cons, List.flatten_cons, List.append_assoc] at henc
    have hstep := amfEntry_exact henc hwf.1
    have hnext : file.drop (pos + (encEntry (key, v)).length) =
        (entries.map encEntry).flatten ++ rest := by
      rw [← List.drop_drop, henc, List.drop_left]
    simp only [List.length_cons, amfLoop, hstep]
    rw [ih (pos + (encEntry (key, v)).length) rest hnext hwf.2]
    simp only [List.map_cons, List.flatten_cons, List.length_append]
    congr 1
    omega

/-- A `fread` at or past the end of the file reads nothing and raises the
end-of-file flag. -/
theorem freadSt_empty {file : List Nat} {pos : Nat} {e : Bool} {n : Nat}
    (h : file.length ≤ pos) (hn : 0 < n) :
    freadSt file n (pos, e) = ([], (pos, true)) := by
  unfold freadSt
  simp [Nat.sub_eq_zero_of_le h, hn]

/-- The advanced cursor of an in-range `fgetc`, value discarded. -/
theorem fgetcSt_snd_lt {file : List Nat} {pos : Nat} {e : Bool}
    (h : pos < file.length) : (fgetcSt file (pos, e)).2 = (pos + 1, e) := by
  simp [fgetcSt, h]

/-- The encoded tag splits into the 12 struct bytes and the rest of the
body. -/
theorem encodeTag_split (t : FlvTag) (h : 1 ≤ t.data.length) :
    encodeTag t = tagHdr12 t ++ t.data.tail := by
  rcases hd : t.data with _ | ⟨d0, dtail⟩
  · rw [hd] at h; simp at h
  · simp [encodeTag, tagHdr12, u24be, hd]

/-- Length of an encoded tag. -/
theorem encodeTag_length (t : FlvTag) :
    (encodeTag t).length = 11 + t.data.length := by
  simp [encodeTag, u24be]
  omega

/-- One pass of the tag loop over a well-formed audio/video tag followed by
more data: the printed row is the tag's record and the cursor ends right
after the tag's body with the flag clear and the struct holding the tag's
header bytes. -/
theorem flvIter_tag (file : List Nat) (pos : Nat) (hdr0 : List Nat)
    (t : FlvTag) (REST : List Nat) (hlen0 : hdr0.length = 12)
    (hwf : wfTag t = true)
    (henc : file.drop pos = ([0, 0, 0, 0] ++ encodeTag t) ++ REST) :
    flvIter file ⟨pos, false, hdr0⟩ =
      (tagRec t, false, ⟨pos + 15 + t.data.length, false, tagHdr12 t⟩) := by
  simp only [wfTag, Bool.and_eq_true, Bool.or_eq_true, beq_iff_eq,
    decide_eq_true_eq] at hwf
  obtain ⟨⟨⟨htype, hge⟩, hlt⟩, hts⟩ := hwf
  have hlen := congrArg List.length henc
  simp only [List.length_drop, List.length_append, List.length_cons,
    List.length_nil, encodeTag_length] at hlen
  have h1 : file.drop pos = [0, 0, 0, 0] ++ (encodeTag t ++ REST) := by
    rw [henc, List.append_assoc]
  have h2 : file.drop (pos + 4) = tagHdr12 t ++ (t.data.tail ++ REST) := by
    rw [← List.drop_drop, h1]
    simp only [List.drop_left' (by rfl : ([0, 0, 0, 0] : List Nat).length = 4)]
    rw [encodeTag_split t hge, List.append_assoc]
  have hds : t.data.length / 65536 % 256 * 65536 +
      t.data.length / 256 % 256 * 256 + t.data.length % 256 =
      t.data.length := by omega
  have htsd : t.timestamp / 65536 % 256 * 65536 +
      t.timestamp / 256 % 256 * 256 + t.timestamp % 256 = t.timestamp := by
    omega
  have hbody : file.drop (pos + 15) = t.data ++ REST := by
    rw [show pos + 15 = pos + 4 + 11 from rfl, ← List.drop_drop, h2]
    rcases hd : t.data with _ | ⟨d0, dtail⟩
    · rw [hd] at hge; simp at hge
    · simp [tagHdr12, hd]
  unfold flvIter
  rw [freadSt_exact 4 h1 rfl]
  dsimp only
  rw [freadSt_exact 12 h2 rfl]
  dsimp only
  have hdrop : List.drop (tagHdr12 t).length hdr0 = [] := by
    rw [show (tagHdr12 t).length = 12 from by simp [tagHdr12]]
    exact List.drop_eq_nil_iff.mpr (by omega)
  simp only [hdrop, List.append_nil, fseekBack1]
  simp only [tagHdr12, List.getD_cons_zero, List.getD_cons_succ]
  rw [hds, htsd]
  simp only [Bool.false_eq_true, if_false,
    show pos + 4 + 12 - 1 = pos + 15 from by omega]
  have hfinal : flvBody file t.tagType t.data.length (pos + 15, false) =
      (pos + 15 + t.data.length, false) := by
    rcases htype with h8 | h9
    · rw [h8]
      unfold flvBody
      simp only [if_pos rfl]
      rw [fgetcSt_snd_lt (by omega), fgetcN_exact (by omega)]
      simp only [if_true, Prod.mk.injEq]
      exact ⟨by omega, trivial⟩
    · rw [h9]
      unfold flvBody
      simp only [show (9 = 8) = False from by simp, if_false, if_pos rfl]
      rw [fgetcSt_snd_lt (by omega)]
      simp only [fseekBack1, show pos + 15 + 1 - 1 = pos + 15 from by omega]
      rw [fgetcN_exact (by omega)]
      simp only [if_true]
  rw [hfinal]
  simp [tagRec, tagHdr12]

/-- The pass after the final tag: the 4 trailing previous-tag-size bytes are
consumed, the header `fread` fails leaving the struct bytes stale, the
`fseek` clears the flag, so the stale record — the last tag's — is printed
once more; the body processing then runs past the end of the file and sets
the flag, ending the loop. -/
theorem flvIter_last (file : List Nat) (pos : Nat) (t0 : FlvTag)
    (hwf : wfTag t0 = true) (h2 : 2 ≤ t0.data.length)
    (henc : file.drop pos = [0, 0, 0, 0]) :
    flvIter file ⟨pos, false, tagHdr12 t0⟩ =
      (tagRec t0, false, ⟨file.length, true, tagHdr12 t0⟩) := by
  simp only [wfTag, Bool.and_eq_true, Bool.or_eq_true, beq_iff_eq,
    decide_eq_true_eq] at hwf
  obtain ⟨⟨⟨htype, hge⟩, hlt⟩, hts⟩ := hwf
  have hlen := congrArg List.length henc
  simp only [List.length_drop, List.length_cons, List.length_nil] at hlen
  have hpos : pos + 4 = file.length := by omega
  have h1 : file.drop pos = [0, 0, 0, 0] ++ [] := by simpa using henc
  have hds : t0.data.length / 65536 % 256 * 65536 +
      t0.data.length / 256 % 256 * 256 + t0.data.length % 256 =
      t0.data.length := by omega
  have htsd : t0.timestamp / 65536 % 256 * 65536 +
      t0.timestamp / 256 % 256 * 256 + t0.timestamp % 256 = t0.timestamp := by
    omega
  unfold flvIter
  rw [freadSt_exact 4 h1 rfl]
  dsimp only
  rw [freadSt_empty (by omega) (by omega)]
  dsimp only
  simp only [List.nil_append, List.length_nil, List.drop_zero, fseekBack1]
  simp only [tagHdr12, List.getD_cons_zero, List.getD_cons_succ]
  rw [hds, htsd]
  simp only [Bool.false_eq_true, if_false]
  have hfinal : flvBody file t0.tagType t0.data.length (pos + 4 - 1, false) =
      (file.length, true) := by
    rcases htype with h8 | h9
    · rw [h8]
      unfold flvBody
      simp only [if_pos rfl]
      rw [fgetcSt_snd_lt (by omega)]
      rw [show pos + 4 - 1 + 1 = file.length from by omega]
      rw [fgetcN_past (by omega) (by omega) (by omega)]
      simp only [if_true]
    · rw [h9]
      unfold flvBody
      simp only [show (9 = 8) = False from by simp, if_false, if_pos rfl]
      rw [fgetcSt_snd_lt (by omega)]
      simp only [fseekBack1]
      rw [show pos + 4 - 1 + 1 - 1 = pos + 3 from by omega]
      rw [fgetcN_past (by omega) (by omega) (by omega)]
      simp only [if_true]
  rw [hfinal]
  simp [tagRec, tagHdr12]

/-- The tag loop over a well-formed audio/video FLV tail: the printed
records are the remaining tags in order, followed by one spurious record
repeating the header of the last tag printed. -/
theorem flvRun_loop (file : List Nat) :
    ∀ (todo : List FlvTag) (pos : Nat) (hdr0 : List Nat) (t0 : FlvTag),
      (∀ t ∈ todo, wfTag t = true) → wfTag t0 = true →
      hdr0.length = 12 → (todo = [] → hdr0 = tagHdr12 t0) →
      2 ≤ ((todo.getLastD t0).data).length →
      file.drop pos =
        (todo.map fun t => [0, 0, 0, 0] ++ encodeTag t).flatten ++
          [0, 0, 0, 0] →
      ∀ fuel, todo.length + 1 ≤ fuel →
        flvRun file fuel ⟨pos, false, hdr0⟩ =
          todo.map tagRec ++ [tagRec (todo.getLastD t0)] := by
  intro todo
  induction todo with
  | nil =>
    intro pos hdr0 t0 _ hwf0 _ hhdr hlast henc fuel hfuel
    rcases fuel with _ | fuel
    · omega
    · simp only [List.map_nil, List.flatten_nil, List.nil_append] at henc
      rw [hhdr rfl]
      have hiter := flvIter_last file pos t0 hwf0 (by simpa using hlast) henc
      simp only [flvRun, hiter]
      simp [List.getLastD]
  | cons t rest ih =>
    intro pos hdr0 t0 hwf hwf0 hlen0 _ hlast henc fuel hfuel
    rcases fuel with _ | fuel
    · omega
    · have hwt : wfTag t = true := hwf t (by simp)
      have henc2 : file.drop pos = ([0, 0, 0, 0] ++ encodeTag t) ++
          ((rest.map fun t => [0, 0, 0, 0] ++ encodeTag t).flatten ++
            [0, 0, 0, 0]) := by
        simpa [List.append_assoc] using henc
      have hiter := flvIter_tag file pos hdr0 t _ hlen0 hwt henc2
      have hnext : file.drop (pos + 15 + t.data.length) =
          (rest.map fun t => [0, 0, 0, 0] ++ encodeTag t).flatten ++
            [0, 0, 0, 0] := by
        rw [show pos + 15 + t.data.length = pos + (15 + t.data.length) from
          by omega, ← List.drop_drop, henc2, List.drop_left' (by
            simp [encodeTag_length]
            omega)]
      have hlast' : 2 ≤ ((rest.getLastD t).data).length := by
        rw [← List.getLastD_cons t0 t rest]
        exact hlast
      simp only [flvRun, hiter]
      rw [ih (pos + 15 + t.data.length) (tagHdr12 t) t
        (fun u hu => hwf u (by simp [hu])) hwt (by simp [tagHdr12])
        (fun _ => rfl) hlast' hnext fuel (by simpa using hfuel)]
      simp only [List.map_cons, List.cons_append, List.getLastD_cons,
        Bool.false_eq_true, if_false]

/-- C8 (amended): for every well-formed FLV file with `N ≥ 1` tags — all of
type audio (8) or video (9), every tag with at least one body byte, the last
with at least two — the demuxer prints the `N` tag records in file order and
then one extra, spurious record: the reads of the pass after the final tag
fail and leave the `TAG_HEADER` struct holding the last tag's header, the
`fseek` of source line 2128 clears the end-of-file flag before the check of
line 2150, and the stale record is printed again.  So `N` tags yield `N + 1`
records, not `N`.  (Script tags are excluded: their handling repositions by
the absolute seek of line 2551, which assumes the script tag is first.) -/
theorem flv_records (tags : List FlvTag) (h0 : tags ≠ [])
    (hwf : ∀ t ∈ tags, wfTag t = true)
    (hlast : 2 ≤ ((tags.getLast h0).data).length) :
    ∀ fuel, tags.length + 1 ≤ fuel →
      flvParse (encodeFlv tags) fuel =
        tags.map tagRec ++ [tagRec (tags.getLast h0)] := by
  intro fuel hfuel
  have hgld : ∀ a : FlvTag, tags.getLastD a = tags.getLast h0 := by
    intro a
    rw [List.getLastD_eq_getLast?, List.getLast?_eq_getLast tags h0]
    rfl
  rcases tags with _ | ⟨t1, rest⟩
  · exact absurd rfl h0
  · have hinit : flvInit (encodeFlv (t1 :: rest)) =
        ⟨9, false, List.replicate 12 0⟩ := by
      simp [flvInit, encodeFlv]
    have hdrop9 : (encodeFlv (t1 :: rest)).drop 9 =
        ((t1 :: rest).map fun t => [0, 0, 0, 0] ++ encodeTag t).flatten ++
          [0, 0, 0, 0] := by
      rw [encodeFlv, List.append_assoc, List.drop_left' (by rfl)]
    rw [flvParse, hinit, flvRun_loop (encodeFlv (t1 :: rest)) (t1 :: rest) 9
      (List.replicate 12 0) t1 hwf (hwf t1 (by simp)) (by simp)
      (by intro h; simp at h) (by rw [hgld]; exact hlast) hdrop9 fuel hfuel,
      hgld]

/-- Witness for `flv_records`: an audio tag then a video tag yield those two
records and the spurious repeat of the video record. -/
theorem flv_records_witness :
    flvParse
      (encodeFlv [⟨8, 7, [0xaf, 1]⟩, ⟨9, 9, [0x17, 0, 1]⟩]) 3 =
      [⟨8, 7, [0xaf, 1]⟩, (⟨9, 9, [0x17, 0, 1]⟩ : FlvTag)].map tagRec ++
        [tagRec ([⟨8, 7, [0xaf, 1]⟩,
          (⟨9, 9, [0x17, 0, 1]⟩ : FlvTag)].getLast (by decide))] :=
  flv_records [⟨8, 7, [0xaf, 1]⟩, ⟨9, 9, [0x17, 0, 1]⟩] (by decide)
    (by decide) (by decide) 3 (by decide)

/-- Counterexample to C8 as stated: a well-formed FLV file with exactly one
audio tag makes the demuxer print two records — the tag and a spurious
repeat — not one. -/
theorem flv_records_cex :
    flvParse (encodeFlv [⟨8, 0, [0xaf, 0x01]⟩]) 5 = [(8, 2, 0), (8, 2, 0)] ∧
    (flvParse (encodeFlv [⟨8, 0, [0xaf, 0x01]⟩]) 5).length ≠
      [(⟨8, 0, [0xaf, 0x01]⟩ : FlvTag)].length := by decide

/-- Witness for `amf_skip_unknown`: an unknown String key (`"kk"` with value
`"ABC"`) followed by the allow-listed key `"width"` with a Number value; the
loop lands exactly past both encoded entries. -/
theorem amf_skip_unknown_witness :
    amfLoop (encEntry ([107, 107], .str [65, 66, 67]) ++
        encEntry ([119, 105, 100, 116, 104], .num [64, 148, 0, 0, 0, 0, 0, 0]))
      ([([107, 107], AmfVal.str [65, 66, 67]),
        ([119, 105, 100, 116, 104], AmfVal.num [64, 148, 0, 0, 0, 0, 0, 0])].length)
      (0, false) =
    (0 + (([([107, 107], AmfVal.str [65, 66, 67]),
        ([119, 105, 100, 116, 104],
          AmfVal.num [64, 148, 0, 0, 0, 0, 0, 0])].map encEntry).flatten).length,
      false) :=
  amf_skip_unknown _ _ 0 [] (by decide) (by decide)
